import Mathlib

/-!
Verification of the feed entry processing pipeline of ircrssfeedbot
(src/ircrssfeedbot/feed.py and src/ircrssfeedbot/config.py), via a shallow
embedding of the Python code into Lean.  Strings are Lean `String`
(a list of characters, matching Python's sequence-of-code-points view for the
slicing and prefix operations the code performs).  External collaborators
(the `re` module, `str.format_map`, the delivery-history store, the URL
shortener) are parameters of the embedded functions.
-/

/-- Python prefix test on character lists: does the first list start with the
second?  Models `str.startswith`. -/
def startsWithList : List Char → List Char → Bool
  | _, [] => true
  | [], _ :: _ => false
  | c :: cs, p :: ps => c == p && startsWithList cs ps

/-- Models Python `s.startswith(pre)`. -/
def pyStartsWith (s pre : String) : Bool :=
  startsWithList s.data pre.data

/-- Models Python `s.replace(old, new, 1)` on character lists: replace only the
first (leftmost) occurrence of `old` with `new`. -/
def replaceFirstList (old new : List Char) : List Char → List Char
  | [] => if startsWithList [] old then new else []
  | c :: rest =>
    if startsWithList (c :: rest) old then new ++ (c :: rest).drop old.length
    else c :: replaceFirstList old new rest

/-- Models Python `s.replace(old, new, 1)`. -/
def pyReplaceFirst (s old new : String) : String :=
  ⟨replaceFirstList old.data new.data s.data⟩

/-- Leftmost occurrence of the literal pattern `pat` in a character list,
starting the position count at `i`; returns the matched span.  This is the
behaviour of `re.search` for a pattern that is a plain literal. -/
def findSubstr (pat : List Char) : List Char → Nat → Option (Nat × Nat)
  | [], i => if startsWithList [] pat then some (i, i + pat.length) else none
  | c :: t, i =>
    if startsWithList (c :: t) pat then some (i, i + pat.length)
    else findSubstr pat t (i + 1)

/-- `re.search` for literal patterns: leftmost match span of `pattern` in
`val`, or `none`. -/
def litSearch (pattern val : String) : Option (Nat × Nat) :=
  findSubstr pattern.data val.data 0

/-- Scanner for literal `re.sub`: while `skip` is positive the character
belongs to an occurrence already replaced and is consumed silently;
otherwise, on an occurrence of `old`, emit `new` and start skipping the
occurrence's characters. -/
def replaceAllAux (old new : List Char) : List Char → Nat → List Char
  | [], _ => []
  | _ :: rest, skip + 1 => replaceAllAux old new rest skip
  | c :: rest, 0 =>
    if startsWithList (c :: rest) old then new ++ replaceAllAux old new rest (old.length - 1)
    else c :: replaceAllAux old new rest 0

/-- `re.sub` for literal non-empty patterns: replace every non-overlapping
occurrence of `old` by `new`, left to right. -/
def replaceAllList (old new s : List Char) : List Char :=
  match old with
  | [] => s
  | _ :: _ => replaceAllAux old new s 0

/-- Parameter lookup used by the simple template renderer below; a missing key
renders as the empty string. -/
def lookupParam (params : List (String × String)) (k : String) : String :=
  match params.find? (fun p => p.fst == k) with
  | some p => p.snd
  | none => ""

/-- A simple model of Python `str.format_map` for templates made of literal
text and plain replacement fields: scanning state is `none` outside a field
and `some acc` inside one, `acc` holding the field name read so far. -/
def renderFmt (params : List (String × String)) : List Char → Option (List Char) → List Char
  | [], _ => []
  | c :: rest, none =>
    if c == '{' then renderFmt params rest (some [])
    else c :: renderFmt params rest none
  | c :: rest, some acc =>
    if c == '}' then (lookupParam params ⟨acc⟩).data ++ renderFmt params rest none
    else renderFmt params rest (some (acc ++ [c]))

/-- One syndicated feed item, as the Python dataclass `FeedEntry`
(src/ircrssfeedbot/feed.py lines 21-28): a `title` field declared with
`compare=False` and a `long_url` field declared with `compare=True`. -/
structure FeedEntry where
  title : String
  long_url : String
deriving DecidableEq, Repr

/-- A feed item extended with a shortened URL, as the Python dataclass
`ShortenedFeedEntry` (feed.py lines 40-46): adds a `short_url` field declared
with `compare=False`. -/
structure ShortenedFeedEntry where
  title : String
  long_url : String
  short_url : String
deriving DecidableEq, Repr

/-- The tuple of fields the generated dataclass comparison methods use for
`FeedEntry`: exactly the fields declared with `compare=True`, in declaration
order, which is `(long_url,)`. -/
def FeedEntry.compareTuple (e : FeedEntry) : List String :=
  [e.long_url]

/-- The dataclass-generated `__eq__` of `FeedEntry`: comparison of the
compare-tuples of the two instances. -/
def FeedEntry.pyEq (a b : FeedEntry) : Bool :=
  a.compareTuple == b.compareTuple

/-- The dataclass-generated `__hash__` of `FeedEntry` (from
`unsafe_hash=True`): the built-in tuple hash, here an arbitrary function `h`,
applied to the compare-tuple. -/
def FeedEntry.pyHash (h : List String → Nat) (e : FeedEntry) : Nat :=
  h e.compareTuple

/-- Compare-tuple of `ShortenedFeedEntry`: `title` and `short_url` are both
declared `compare=False`, so the tuple is again `(long_url,)`. -/
def ShortenedFeedEntry.compareTuple (s : ShortenedFeedEntry) : List String :=
  [s.long_url]

/-- The dataclass-generated `__eq__` of `ShortenedFeedEntry`. -/
def ShortenedFeedEntry.pyEq (a b : ShortenedFeedEntry) : Bool :=
  a.compareTuple == b.compareTuple

/-- `FeedEntry.post_url` (feed.py lines 26-28): returns `self.long_url`. -/
def FeedEntry.post_url (e : FeedEntry) : String :=
  e.long_url

/-- `ShortenedFeedEntry.post_url` (feed.py lines 44-46): returns
`self.short_url`. -/
def ShortenedFeedEntry.post_url (s : ShortenedFeedEntry) : String :=
  s.short_url

/-- The external Python collaborators the transform chain calls:
`search pattern val` is the span of `re.search(pattern, val)` (or `none`),
`groups pattern val` is its `groupdict()` as an association list (or `none`
when there is no match), `rsub pattern repl val` is `re.sub(pattern, repl,
val)`, and `format_map template params` is `template.format_map(params)`. -/
structure PyExt where
  search : String → String → Option (Nat × Nat)
  groups : String → String → Option (List (String × String))
  rsub : String → String → String → String
  format_map : String → List (String × String) → String

/-- The field on which a whitelist or blacklist pattern matched. -/
inductive MatchField where
  | title
  | url
deriving DecidableEq, Repr

/-- A whitelist or blacklist section of a feed configuration: a list of
patterns per field, plus the `explain` flag (read only for whitelists). -/
structure SearchConfig where
  title : List String
  url : List String
  explain : Bool
deriving DecidableEq, Repr

/-- `FeedEntry.is_listed` (feed.py lines 30-37): iterate over the ordered
mapping from `title` to the entry title and from `url` to the entry long URL,
in that insertion order; within each field try the configured patterns in
list order and return the field plus the span of the first `re.search`
match, else `none`. -/
def FeedEntry.is_listed (ext : PyExt) (searchlist : SearchConfig) (e : FeedEntry) :
    Option (MatchField × Nat × Nat) :=
  match searchlist.title.findSome? (fun p => ext.search p e.title) with
  | some sp => some (MatchField.title, sp)
  | none =>
    match searchlist.url.findSome? (fun p => ext.search p e.long_url) with
    | some sp => some (MatchField.url, sp)
    | none => none

/-- A concrete `PyExt` instance, adequate for regex patterns that are plain
literals (no metacharacters, hence no named groups) and for format templates
made of literal text and plain replacement fields; used to evaluate the
pipeline on concrete inputs. -/
def litExt : PyExt where
  search := litSearch
  groups := fun p v => (litSearch p v).map (fun _ => [])
  rsub := fun p r v => ⟨replaceAllList p.data r.data v.data⟩
  format_map := fun t params => ⟨renderFmt params t.data none⟩

/-- One `sub` rule of a feed configuration: a regex pattern and a
replacement. -/
structure SubRule where
  pattern : String
  repl : String
deriving DecidableEq, Repr

/-- The `sub` section of a feed configuration: an optional rule for `title`
and an optional rule for `url`. -/
structure SubConfig where
  title : Option SubRule
  url : Option SubRule
deriving DecidableEq, Repr

/-- The `format` section of a feed configuration: optional extraction
patterns `re.title` / `re.url` and optional template strings `str.title` /
`str.url`. -/
structure FormatConfig where
  re_title : Option String
  re_url : Option String
  str_title : Option String
  str_url : Option String
deriving DecidableEq, Repr

/-- The per-feed configuration bundle consumed by the pipeline
(`feed_config` in feed.py).  A `none` field models an absent (or falsy)
key, matching the `feed_config.get(...)` defaults in the code. -/
structure FeedConfig where
  whitelist : Option SearchConfig
  blacklist : Option SearchConfig
  https : Bool
  sub : Option SubConfig
  format : Option FormatConfig
  new : Option String
  dedup : Option String
  shorten : Option Bool
deriving DecidableEq, Repr

/-- The accumulation behind `dict.fromkeys(entries)` (feed.py line 69):
insert entries left to right, skipping an entry when an already-inserted key
compares equal to it under the dataclass `__eq__` (hash collisions are
resolved by `__eq__`, and `__hash__` is a function of the compare-tuple, so
key identity is exactly `pyEq`).  The first inserted key object is kept. -/
def dictFromKeys (seen : List FeedEntry) : List FeedEntry → List FeedEntry
  | [] => []
  | e :: rest =>
    if seen.any (fun s => s.pyEq e) then dictFromKeys seen rest
    else e :: dictFromKeys (seen ++ [e]) rest

/-- `Feed._dedupe_entries` (feed.py lines 66-75): `list(dict.fromkeys(entries))`,
returned when it removed anything, with the original list returned
otherwise. -/
def Feed.dedupe_entries (entries : List FeedEntry) : List FeedEntry :=
  if entries.length - (dictFromKeys [] entries).length > 0 then dictFromKeys [] entries
  else entries

/-- Python `title[:s0] + '*' + title[s0:s1] + '*' + title[s1:]`
(feed.py lines 98-100): wrap the matched span of the title with `*`. -/
def explainTitle (t : String) (s0 s1 : Nat) : String :=
  ⟨t.data.take s0 ++ '*' :: ((t.data.drop s0).take (s1 - s0) ++ '*' :: t.data.drop s1)⟩

/-- The in-place whitelist annotation applied to one entry during the
whitelist stage (feed.py lines 93-101): when the first match is on the title
and `explain` is set, the matched span of the title is wrapped with `*`. -/
def wlAnnotate (ext : PyExt) (wl : SearchConfig) (e : FeedEntry) : FeedEntry :=
  match e.is_listed ext wl with
  | some (MatchField.title, s0, s1) =>
    if wl.explain then { e with title := explainTitle e.title s0 s1 } else e
  | _ => e

/-- The whitelist stage of `Feed._entries` (feed.py lines 86-103): skipped
when no whitelist is configured; otherwise keep exactly the entries for
which `is_listed` matches, annotating each kept entry in place. -/
def whitelistStage (ext : PyExt) (cfg : FeedConfig) (entries : List FeedEntry) : List FeedEntry :=
  match cfg.whitelist with
  | none => entries
  | some wl =>
    (entries.filter (fun e => (e.is_listed ext wl).isSome)).map (wlAnnotate ext wl)

/-- The blacklist stage of `Feed._entries` (feed.py lines 105-110): skipped
when no blacklist is configured; otherwise drop every entry for which
`is_listed` matches. -/
def blacklistStage (ext : PyExt) (cfg : FeedConfig) (entries : List FeedEntry) : List FeedEntry :=
  match cfg.blacklist with
  | none => entries
  | some bl => entries.filter (fun e => !(e.is_listed ext bl).isSome)

/-- The in-place HTTPS rewrite applied to one entry (feed.py lines 115-117):
when the long URL starts with the literal `http://`, replace only its first
occurrence with `https://`. -/
def httpsRewrite (e : FeedEntry) : FeedEntry :=
  if pyStartsWith e.long_url "http://" then
    { e with long_url := pyReplaceFirst e.long_url "http://" "https://" }
  else e

/-- The HTTPS enforcement stage of `Feed._entries` (feed.py lines 112-118):
applied to every entry when the feed configures `https: true`, skipped
otherwise. -/
def httpsStage (cfg : FeedConfig) (entries : List FeedEntry) : List FeedEntry :=
  if cfg.https then entries.map httpsRewrite else entries

/-- The helper lambda `re_sub` of the substitution stage (feed.py lines
124-125): apply `re.sub` when a rule is configured for the field, else pass
the value through. -/
def re_sub_opt (ext : PyExt) (v : String) (r : Option SubRule) : String :=
  match r with
  | none => v
  | some rule => ext.rsub rule.pattern rule.repl v

/-- The substitution stage of `Feed._entries` (feed.py lines 120-128):
skipped when no `sub` section is configured; otherwise rebuild each entry
from the per-field substitution results. -/
def subStage (ext : PyExt) (cfg : FeedConfig) (entries : List FeedEntry) : List FeedEntry :=
  match cfg.sub with
  | none => entries
  | some sc =>
    entries.map (fun e =>
      { title := re_sub_opt ext e.title sc.title, long_url := re_sub_opt ext e.long_url sc.url })

/-- Python `dict` insertion of one key: overwrite an existing key's value in
place, else append. -/
def setKey (base : List (String × String)) (k v : String) : List (String × String) :=
  if base.any (fun p => p.fst == k) then
    base.map (fun p => if p.fst == k then (k, v) else p)
  else base ++ [(k, v)]

/-- Python `params.update(upd)` on association lists. -/
def dictUpdate (base upd : List (String × String)) : List (String × String) :=
  upd.foldl (fun b p => setKey b p.fst p.snd) base

/-- The parameter mapping built by the format stage for one entry (feed.py
lines 137-142): seeded with the entry's title and long URL, then overlaid
with the named groups extracted from each field for which an extraction
pattern is configured and matches. -/
def formatParams (ext : PyExt) (fc : FormatConfig) (e : FeedEntry) : List (String × String) :=
  let params0 := [("title", e.title), ("url", e.long_url)]
  let p1 :=
    match fc.re_title with
    | none => params0
    | some pat =>
      match ext.groups pat e.title with
      | some gd => dictUpdate params0 gd
      | none => params0
  match fc.re_url with
  | none => p1
  | some pat =>
    match ext.groups pat e.long_url with
    | some gd => dictUpdate p1 gd
    | none => p1

/-- The format stage of `Feed._entries` (feed.py lines 130-145): skipped when
no `format` section is configured; otherwise each entry is replaced by a new
entry rendered from the template strings (defaults the identity templates)
against the entry's parameter mapping. -/
def formatStage (ext : PyExt) (cfg : FeedConfig) (entries : List FeedEntry) : List FeedEntry :=
  match cfg.format with
  | none => entries
  | some fc =>
    entries.map (fun e =>
      let params := formatParams ext fc e
      { title := ext.format_map (fc.str_title.getD "{title}") params,
        long_url := ext.format_map (fc.str_url.getD "{url}") params })

/-- The entry sequence reaching the substitution stage inside
`Feed._entries`: the cached entries after the whitelist, blacklist and HTTPS
enforcement stages, in that order. -/
def subStageInput (ext : PyExt) (cfg : FeedConfig) (cached : List FeedEntry) : List FeedEntry :=
  httpsStage cfg (blacklistStage ext cfg (whitelistStage ext cfg cached))

/-- `Feed._entries` (feed.py lines 77-151) as a function of the cached entry
sequence for the feed's URL: whitelist, blacklist, HTTPS enforcement,
substitution, format, then a final dedupe. -/
def Feed.entries_chain (ext : PyExt) (cfg : FeedConfig) (cached : List FeedEntry) : List FeedEntry :=
  Feed.dedupe_entries (formatStage ext cfg (subStage ext cfg (subStageInput ext cfg cached)))

/-- The state of the `Feed._url_entries` TTL cache for one URL after one
logical feed runs `Feed._entries` over it.  The Python code aliases the
cached list's `FeedEntry` objects: the whitelist stage assigns
`entry.title` in place (feed.py line 100) and the HTTPS stage assigns
`entry.long_url` in place (feed.py line 117), while the substitution and
format stages construct new `FeedEntry` objects and therefore leave the
cached ones alone.  Per cached object: the whitelist annotation applies when
the object matches the whitelist; the HTTPS rewrite additionally applies
only when the object survived both filters and the feed set `https: true`. -/
def Feed.cacheAfterFeed (ext : PyExt) (cfg : FeedConfig) (cache : List FeedEntry) :
    List FeedEntry :=
  cache.map (fun e =>
    let passW :=
      match cfg.whitelist with
      | none => true
      | some wl => (e.is_listed ext wl).isSome
    let e1 :=
      match cfg.whitelist with
      | none => e
      | some wl => wlAnnotate ext wl e
    let passB :=
      match cfg.blacklist with
      | none => true
      | some bl => !(e1.is_listed ext bl).isSome
    if passW && passB && cfg.https then httpsRewrite e1 else e1)

/-- Trace of the retry loop of `Feed._url_entries` (feed.py lines 158-171):
the attempt numbers performed, the sleep durations performed between
attempts, and either the number of the successful attempt or the propagated
request error. -/
structure FetchTrace where
  attempts : List Nat
  sleeps : List Nat
  result : Except Unit Nat
deriving Repr

deriving instance DecidableEq for Except

deriving instance DecidableEq for FetchTrace

/-- The retry loop of `Feed._url_entries` from attempt `n` with `r` attempts
remaining (`n + r - 1` is `READ_ATTEMPTS_MAX`).  `outcome k` tells whether
attempt `k` succeeds (`requests.get` plus `raise_for_status` without a
`RequestException`).  On failure the loop re-raises when the attempt is the
last one and otherwise sleeps `2 ^ n` time units and retries; on success it
breaks out of the loop. -/
def fetchFrom (outcome : Nat → Bool) : Nat → Nat → FetchTrace
  | _, 0 => ⟨[], [], Except.error ()⟩
  | n, r + 1 =>
    if outcome n then ⟨[n], [], Except.ok n⟩
    else if r = 0 then ⟨[n], [], Except.error ()⟩
    else
      let t := fetchFrom outcome (n + 1) r
      ⟨n :: t.attempts, 2 ^ n :: t.sleeps, t.result⟩

/-- `[s, s + 1, ..., s + k - 1]`: the consecutive attempt numbers. -/
def countFrom (s : Nat) : Nat → List Nat
  | 0 => []
  | k + 1 => s :: countFrom (s + 1) k

/-- The retry loop of `Feed._url_entries` (feed.py lines 160-171):
`for num_attempt in range(1, READ_ATTEMPTS_MAX + 1)`, with the bound
`attempts_max` standing for `config.READ_ATTEMPTS_MAX`. -/
def Feed.url_entries_retry (outcome : Nat → Bool) (attempts_max : Nat) : FetchTrace :=
  fetchFrom outcome 1 attempts_max

/-- The configuration errors raised by the pipeline; `badDedup` is the
`AssertionError` of the `assert dedup_strategy == 'feed'` at feed.py line
221. -/
inductive ConfigError where
  | badDedup (value : String)
deriving DecidableEq, Repr

/-- `config.DEDUP_STRATEGY_DEFAULT` (src/ircrssfeedbot/config.py line 18). -/
def DEDUP_STRATEGY_DEFAULT : String := "channel"

/-- `Feed.unposted_entries` (feed.py lines 212-226) as a function of the two
delivery-history queries: build the long-URL list of the input entries,
resolve the dedup strategy (defaulting to `DEDUP_STRATEGY_DEFAULT`), consult
`select_unposted_for_channel` for `"channel"` and
`select_unposted_for_channel_feed` for `"feed"` (any other value fails the
assertion), then keep the input entries whose long URL is a member of the
set of the returned URLs, in input order. -/
def Feed.unposted_entries (store_channel store_channel_feed : List String → List String)
    (cfg : FeedConfig) (entries : List FeedEntry) : Except ConfigError (List FeedEntry) :=
  let long_urls := entries.map (fun e => e.long_url)
  let dedup_strategy := cfg.dedup.getD DEDUP_STRATEGY_DEFAULT
  if dedup_strategy == "channel" then
    Except.ok (entries.filter (fun e => (store_channel long_urls).contains e.long_url))
  else if dedup_strategy == "feed" then
    Except.ok (entries.filter (fun e => (store_channel_feed long_urls).contains e.long_url))
  else Except.error (ConfigError.badDedup dedup_strategy)

/-- `config.MAX_POSTS_OF_NEW_FEED` (src/ircrssfeedbot/config.py line 21). -/
def MAX_POSTS_OF_NEW_FEED : Nat := 3

/-- Modelled from the spec: `config.NEW_FEED_POSTS_MAX` and
`config.NEW_FEED_POSTS_DEFAULT` are referenced by `Feed.postable_entries`
(feed.py lines 195-196) but are missing from src/ircrssfeedbot/config.py.
The spec describes them as a lookup table from symbolic size class to
integer cap together with a default symbol that resolves to a fixed small
integer, 3 (`MAX_POSTS_OF_NEW_FEED`).  They are represented as parameters
`npm` (the table) and `new_default` (the default symbol); this predicate is
the one constraint the spec imposes on them. -/
def newPostsTableSpec (npm : String → Nat) (new_default : String) : Prop :=
  npm new_default = MAX_POSTS_OF_NEW_FEED

/-- The new-feed filter of `Feed.postable_entries` (feed.py lines 192-199):
when the delivery history reports the `(channel, name)` pair as a new feed,
keep only the first `NEW_FEED_POSTS_MAX[feed_config.get('new',
NEW_FEED_POSTS_DEFAULT)]` entries; otherwise pass the list through. -/
def Feed.newFeedThrottle (npm : String → Nat) (new_default : String) (cfg : FeedConfig)
    (is_new : Bool) (unposted : List FeedEntry) : List FeedEntry :=
  if is_new then unposted.take (npm (cfg.new.getD new_default)) else unposted

/-- The list comprehension at feed.py line 206: build
`ShortenedFeedEntry(e.title, e.long_url, short_urls[i])` for each entry,
where indexing `short_urls[i]` fails (Python `IndexError`) when the
shortener returned fewer URLs than entries. -/
def buildShortened (short_urls : List String) : List FeedEntry → Nat →
    Option (List ShortenedFeedEntry)
  | [], _ => some []
  | e :: rest, i =>
    match short_urls[i]? with
    | none => none
    | some su =>
      (buildShortened short_urls rest (i + 1)).map
        (fun l => ⟨e.title, e.long_url, su⟩ :: l)

/-- A postable entry (feed.py line 188 return type
`List[Union[FeedEntry, ShortenedFeedEntry]]`). -/
inductive PostableEntry where
  | plain (e : FeedEntry)
  | shortened (s : ShortenedFeedEntry)
deriving DecidableEq, Repr

/-- Dynamic dispatch of the `post_url` property over the union type. -/
def PostableEntry.post_url : PostableEntry → String
  | PostableEntry.plain e => e.post_url
  | PostableEntry.shortened s => s.post_url

/-- `Feed.postable_entries` (feed.py lines 187-210) downstream of
`unposted_entries`: apply the new-feed throttle, then, exactly when the
resulting list is non-empty and the `shorten` flag (default true) is set,
make one batch call to the URL shortener with all long URLs in list order
and wrap each entry with its corresponding short URL.  The second component
records the batch calls made to the shortener. -/
def Feed.postable_entries (npm : String → Nat) (new_default : String)
    (shorten_urls : List String → List String) (cfg : FeedConfig) (is_new : Bool)
    (unposted : List FeedEntry) : Option (List PostableEntry) × List (List String) :=
  let entries := Feed.newFeedThrottle npm new_default cfg is_new unposted
  if !entries.isEmpty && cfg.shorten.getD true then
    let long_urls := entries.map (fun e => e.long_url)
    let short_urls := shorten_urls long_urls
    ((buildShortened short_urls entries 0).map (fun l => l.map PostableEntry.shortened),
      [long_urls])
  else (some (entries.map PostableEntry.plain), [])

theorem FeedEntry.pyEq_eq (a b : FeedEntry) : a.pyEq b = (a.long_url == b.long_url) := by
  rw [Bool.eq_iff_iff]
  simp [FeedEntry.pyEq, FeedEntry.compareTuple]

theorem dictFromKeys_sublist (l : List FeedEntry) :
    ∀ seen, List.Sublist (dictFromKeys seen l) l := by
  induction l with
  | nil => intro seen; simp [dictFromKeys]
  | cons e rest ih =>
    intro seen
    simp only [dictFromKeys]
    split
    · exact (ih seen).cons e
    · exact (ih (seen ++ [e])).cons₂ e

theorem dictFromKeys_filter (u : String) (l : List FeedEntry) : ∀ seen,
    (dictFromKeys seen l).filter (fun e => e.long_url == u) =
      if seen.any (fun s => s.long_url == u) then []
      else (l.filter (fun e => e.long_url == u)).take 1 := by
  induction l with
  | nil =>
    intro seen
    cases h : seen.any (fun s => s.long_url == u) <;> simp [dictFromKeys, h]
  | cons e rest ih =>
    intro seen
    simp only [dictFromKeys, FeedEntry.pyEq_eq]
    by_cases hg : (seen.any fun s => s.long_url == e.long_url) = true
    · rw [if_pos hg, ih seen]
      by_cases hseen : (seen.any fun s => s.long_url == u) = true
      · simp [hseen]
      · have hne : (e.long_url == u) = false := by
          by_contra hb
          rw [Bool.not_eq_false, beq_iff_eq] at hb
          obtain ⟨s, hs, hsu⟩ := List.any_eq_true.mp hg
          rw [beq_iff_eq] at hsu
          exact hseen (List.any_eq_true.mpr ⟨s, hs, by rw [beq_iff_eq, hsu, hb]⟩)
        simp [hseen, List.filter_cons, hne]
    · rw [if_neg hg]
      by_cases hu : e.long_url = u
      · have hseen : (seen.any fun s => s.long_url == u) = false := by
          rw [← hu]
          simpa using hg
        have hseen2 : ((seen ++ [e]).any fun s => s.long_url == u) = true := by
          simp [hu]
        simp [List.filter_cons, hu, ih (seen ++ [e]), hseen2, hseen]
      · have hne : (e.long_url == u) = false := by simp [hu]
        have hseen2 : ((seen ++ [e]).any fun s => s.long_url == u) =
            (seen.any fun s => s.long_url == u) := by
          simp [hne]
        simp [List.filter_cons, hne, ih (seen ++ [e]), hseen2]

theorem dedupe_eq_dict (entries : List FeedEntry) :
    Feed.dedupe_entries entries = dictFromKeys [] entries := by
  unfold Feed.dedupe_entries
  split
  · rfl
  · next h =>
    have hs := dictFromKeys_sublist entries []
    have hlen : (dictFromKeys [] entries).length = entries.length := by
      have := hs.length_le
      omega
    exact (hs.eq_of_length hlen).symm

/-- C1: `Feed._dedupe_entries` returns an order-preserving subsequence of its
input keeping, for each distinct `long_url`, exactly the first entry bearing
it; in particular two entries with equal `long_url` collapse to the first. -/
theorem c1_dedupe_first_occurrence (entries : List FeedEntry) :
    List.Sublist (Feed.dedupe_entries entries) entries
    ∧ (∀ u : String, (Feed.dedupe_entries entries).filter (fun e => e.long_url == u)
        = (entries.filter (fun e => e.long_url == u)).take 1)
    ∧ (∀ a b : FeedEntry, a.long_url = b.long_url → Feed.dedupe_entries [a, b] = [a]) := by
  refine ⟨?_, ?_, ?_⟩
  · rw [dedupe_eq_dict]
    exact dictFromKeys_sublist entries []
  · intro u
    rw [dedupe_eq_dict, dictFromKeys_filter]
    simp
  · intro a b h
    rw [dedupe_eq_dict]
    simp [dictFromKeys, FeedEntry.pyEq_eq, h]

theorem c1_dedupe_witness :
    Feed.dedupe_entries [⟨"ta", "u1"⟩, ⟨"tb", "u1"⟩] = [⟨"ta", "u1"⟩] :=
  (c1_dedupe_first_occurrence [⟨"ta", "u1"⟩, ⟨"tb", "u1"⟩]).2.2 ⟨"ta", "u1"⟩ ⟨"tb", "u1"⟩ rfl

/-- C2: the dataclass-generated equality of `FeedEntry` and
`ShortenedFeedEntry` holds exactly when the `long_url` fields are equal, and
the generated hash of `FeedEntry` (the tuple hash of the compare-tuple,
which is what the deduplicating `dict` consults) depends only on `long_url`;
`title`, and for `ShortenedFeedEntry` also `short_url`, are excluded. -/
theorem c2_entry_identity :
    (∀ a b : FeedEntry, a.pyEq b = true ↔ a.long_url = b.long_url)
    ∧ (∀ (h : List String → Nat) (a b : FeedEntry),
        a.long_url = b.long_url → a.pyHash h = b.pyHash h)
    ∧ (∀ a b : ShortenedFeedEntry, a.pyEq b = true ↔ a.long_url = b.long_url)
    ∧ (∀ ta tb sa sb u : String,
        FeedEntry.pyEq ⟨ta, u⟩ ⟨tb, u⟩ = true
        ∧ ShortenedFeedEntry.pyEq ⟨ta, u, sa⟩ ⟨tb, u, sb⟩ = true) := by
  refine ⟨?_, ?_, ?_, ?_⟩
  · intro a b
    simp [FeedEntry.pyEq, FeedEntry.compareTuple]
  · intro h a b hab
    simp [FeedEntry.pyHash, FeedEntry.compareTuple, hab]
  · intro a b
    simp [ShortenedFeedEntry.pyEq, ShortenedFeedEntry.compareTuple]
  · intro ta tb sa sb u
    constructor
    · simp [FeedEntry.pyEq, FeedEntry.compareTuple]
    · simp [ShortenedFeedEntry.pyEq, ShortenedFeedEntry.compareTuple]

theorem c2_entry_identity_witness :
    FeedEntry.pyHash (fun l => l.length) ⟨"a", "u"⟩ = FeedEntry.pyHash (fun l => l.length) ⟨"b", "u"⟩
    ∧ FeedEntry.pyEq ⟨"a", "u"⟩ ⟨"b", "u"⟩ = true :=
  ⟨c2_entry_identity.2.1 (fun l => l.length) ⟨"a", "u"⟩ ⟨"b", "u"⟩ rfl,
    (c2_entry_identity.1 ⟨"a", "u"⟩ ⟨"b", "u"⟩).mpr rfl⟩

/-- The configuration of a logical feed that enables only HTTPS enforcement. -/
def c3Cfg : FeedConfig :=
  { whitelist := none, blacklist := none, https := true, sub := none,
    format := none, new := none, dedup := none, shorten := none }

/-- C3: refuted on the code.  The `https: true` stage of `Feed._entries`
assigns `entry.long_url` in place on the `FeedEntry` objects that the
`Feed._url_entries` TTL cache holds for the physical URL, so after one
logical feed with `https: true` processes the cached entries, the cache for
that URL holds a rewritten `long_url` instead of the freshly-parsed one:
the cache content does depend on a logical feed's configuration. -/
theorem c3_cache_mutation :
    Feed.cacheAfterFeed litExt c3Cfg [⟨"T", "http://x.test/1"⟩] = [⟨"T", "https://x.test/1"⟩]
    ∧ ("https://x.test/1" : String) ≠ "http://x.test/1" :=
  ⟨by decide, by decide⟩

/-- C10: `post_url` returns `long_url` on a plain `FeedEntry` and `short_url`
on a `ShortenedFeedEntry`, also through the dispatch over the union type of
postable entries, and modifies nothing (it is a pure projection). -/
theorem c10_post_url :
    (∀ e : FeedEntry, e.post_url = e.long_url)
    ∧ (∀ s : ShortenedFeedEntry, s.post_url = s.short_url)
    ∧ (∀ e : FeedEntry, (PostableEntry.plain e).post_url = e.long_url)
    ∧ (∀ s : ShortenedFeedEntry, (PostableEntry.shortened s).post_url = s.short_url) :=
  ⟨fun _ => rfl, fun _ => rfl, fun _ => rfl, fun _ => rfl⟩

theorem contains_congr {l l' : List String} (h : ∀ u, u ∈ l ↔ u ∈ l') (a : String) :
    l.contains a = l'.contains a := by
  rw [Bool.eq_iff_iff, List.contains_iff_exists_mem_beq, List.contains_iff_exists_mem_beq]
  constructor
  · rintro ⟨b, hb, hab⟩
    exact ⟨b, (h b).mp hb, hab⟩
  · rintro ⟨b, hb, hab⟩
    exact ⟨b, (h b).mpr hb, hab⟩

theorem unposted_entries_eq (sc sf : List String → List String) (cfg : FeedConfig)
    (entries : List FeedEntry) :
    Feed.unposted_entries sc sf cfg entries =
      if cfg.dedup.getD DEDUP_STRATEGY_DEFAULT == "channel" then
        Except.ok (entries.filter (fun e =>
          (sc (entries.map (fun e => e.long_url))).contains e.long_url))
      else if cfg.dedup.getD DEDUP_STRATEGY_DEFAULT == "feed" then
        Except.ok (entries.filter (fun e =>
          (sf (entries.map (fun e => e.long_url))).contains e.long_url))
      else Except.error (ConfigError.badDedup (cfg.dedup.getD DEDUP_STRATEGY_DEFAULT)) := rfl

/-- C4: `Feed.unposted_entries` consults `select_unposted_for_channel` for the
`"channel"` scope (also the default when the `dedup` key is absent) and
`select_unposted_for_channel_feed` for the `"feed"` scope; any other value is
a configuration error (a failed assertion); the result preserves the input
entry order, filtered to membership of `long_url` in the URL set the store
returned, and depends on the store's answer only through that membership. -/
theorem c4_unposted_scope (sc sf : List String → List String) (cfg : FeedConfig)
    (entries : List FeedEntry) :
    (cfg.dedup = none ∨ cfg.dedup = some "channel" →
      Feed.unposted_entries sc sf cfg entries =
        Except.ok (entries.filter (fun e =>
          (sc (entries.map (fun e => e.long_url))).contains e.long_url)))
    ∧ (cfg.dedup = some "feed" →
      Feed.unposted_entries sc sf cfg entries =
        Except.ok (entries.filter (fun e =>
          (sf (entries.map (fun e => e.long_url))).contains e.long_url)))
    ∧ (∀ s : String, cfg.dedup = some s → s ≠ "channel" → s ≠ "feed" →
      Feed.unposted_entries sc sf cfg entries = Except.error (ConfigError.badDedup s))
    ∧ (∀ l, Feed.unposted_entries sc sf cfg entries = Except.ok l → List.Sublist l entries)
    ∧ (∀ sc' sf' : List String → List String,
        (∀ u, u ∈ sc (entries.map (fun e => e.long_url)) ↔
          u ∈ sc' (entries.map (fun e => e.long_url))) →
        (∀ u, u ∈ sf (entries.map (fun e => e.long_url)) ↔
          u ∈ sf' (entries.map (fun e => e.long_url))) →
        Feed.unposted_entries sc sf cfg entries = Feed.unposted_entries sc' sf' cfg entries) := by
  refine ⟨?_, ?_, ?_, ?_, ?_⟩
  · intro h
    rcases h with h | h <;> simp [unposted_entries_eq, h, DEDUP_STRATEGY_DEFAULT]
  · intro h
    simp [unposted_entries_eq, h]
  · intro s h hc hf
    simp [unposted_entries_eq, h, hc, hf]
  · intro l hl
    rw [unposted_entries_eq] at hl
    split at hl
    · simp only [Except.ok.injEq] at hl
      subst hl
      exact List.filter_sublist _
    · split at hl
      · simp only [Except.ok.injEq] at hl
        subst hl
        exact List.filter_sublist _
      · simp at hl
  · intro sc' sf' hsc hsf
    rw [unposted_entries_eq, unposted_entries_eq]
    split
    · exact congrArg Except.ok (List.filter_congr (fun a _ => contains_congr hsc a.long_url))
    · split
      · exact congrArg Except.ok (List.filter_congr (fun a _ => contains_congr hsf a.long_url))
      · rfl

theorem c4_unposted_witness :
    Feed.unposted_entries (fun l => l) (fun _ => [])
      { whitelist := none, blacklist := none, https := false, sub := none,
        format := none, new := none, dedup := none, shorten := none }
      [⟨"t", "u"⟩] = Except.ok [⟨"t", "u"⟩] :=
  ((c4_unposted_scope (fun l => l) (fun _ => [])
      { whitelist := none, blacklist := none, https := false, sub := none,
        format := none, new := none, dedup := none, shorten := none }
      [⟨"t", "u"⟩]).1 (Or.inl rfl)).trans (by decide)

theorem startsWithList_append (p t : List Char) : startsWithList (p ++ t) p = true := by
  induction p with
  | nil => simp [startsWithList]
  | cons c cs ih => simp [startsWithList, ih]

theorem replaceFirst_of_startsWith {s old : List Char} (new : List Char)
    (h : startsWithList s old = true) :
    replaceFirstList old new s = new ++ s.drop old.length := by
  cases s with
  | nil =>
    cases old with
    | nil => simp [replaceFirstList, startsWithList]
    | cons o os => simp [startsWithList] at h
  | cons c rest => simp [replaceFirstList, h]

theorem not_http_of_https (t : List Char) :
    startsWithList ("https://".data ++ t) "http://".data = false := by
  have h1 : ('s' == ':') = false := by decide
  show startsWithList ('h' :: 't' :: 't' :: 'p' :: 's' :: (':' :: '/' :: '/' :: t))
      ('h' :: 't' :: 't' :: 'p' :: ':' :: '/' :: '/' :: []) = false
  simp [startsWithList, h1]

theorem httpsRewrite_not_http (e : FeedEntry) :
    pyStartsWith (httpsRewrite e).long_url "http://" = false := by
  unfold httpsRewrite
  by_cases h : pyStartsWith e.long_url "http://" = true
  · rw [if_pos h]
    unfold pyStartsWith at h ⊢
    show startsWithList (replaceFirstList "http://".data "https://".data e.long_url.data)
      "http://".data = false
    rw [replaceFirst_of_startsWith _ h]
    exact not_http_of_https _
  · rw [if_neg h]
    exact Bool.eq_false_iff.mpr h

theorem httpsRewrite_https (e : FeedEntry) (h : pyStartsWith e.long_url "http://" = true) :
    pyStartsWith (httpsRewrite e).long_url "https://" = true := by
  unfold httpsRewrite
  rw [if_pos h]
  unfold pyStartsWith at h ⊢
  show startsWithList (replaceFirstList "http://".data "https://".data e.long_url.data)
    "https://".data = true
  rw [replaceFirst_of_startsWith _ h]
  exact startsWithList_append _ _

/-- C5 (amended): inside `Feed._entries` the HTTPS enforcement stage runs
before the substitution stage, so with `https: true` the substitution
stage's input is the image of the filtered entries under the HTTPS rewrite;
no URL in that input begins with `http://`, and every entry whose URL began
with `http://` reaches the substitution beginning with `https://`.  (An
entry whose URL begins with neither scheme passes through unchanged, which
is why the input need not always begin with `https://`.) -/
theorem c5_https_before_sub (ext : PyExt) (cfg : FeedConfig) (cached : List FeedEntry)
    (h : cfg.https = true) :
    Feed.entries_chain ext cfg cached =
      Feed.dedupe_entries (formatStage ext cfg (subStage ext cfg (subStageInput ext cfg cached)))
    ∧ subStageInput ext cfg cached =
        (blacklistStage ext cfg (whitelistStage ext cfg cached)).map httpsRewrite
    ∧ (∀ e ∈ subStageInput ext cfg cached, pyStartsWith e.long_url "http://" = false)
    ∧ (∀ e : FeedEntry, pyStartsWith e.long_url "http://" = true →
        pyStartsWith (httpsRewrite e).long_url "https://" = true) := by
  refine ⟨rfl, ?_, ?_, ?_⟩
  · unfold subStageInput httpsStage
    rw [if_pos h]
  · intro e he
    unfold subStageInput httpsStage at he
    rw [if_pos h] at he
    obtain ⟨x, _, rfl⟩ := List.mem_map.mp he
    exact httpsRewrite_not_http x
  · intro e he
    exact httpsRewrite_https e he

/-- A feed configuration with `https: true` and a `url` sub rule, as in the
premise of C5. -/
def c5Cfg : FeedConfig :=
  { whitelist := none, blacklist := none, https := true,
    sub := some { title := none, url := some { pattern := "e.test", repl := "example.test" } },
    format := none, new := none, dedup := none, shorten := none }

/-- C5 counterexample: with `https: true` and a `url` sub rule configured, an
entry whose URL starts with neither `http://` nor `https://` (here
`ftp://`) reaches the substitution stage unchanged, so the substitution's
input URL does not begin with `https://`, refuting the claim as stated. -/
theorem c5_counterexample :
    subStageInput litExt c5Cfg [⟨"t", "ftp://e.test/1"⟩] = [⟨"t", "ftp://e.test/1"⟩]
    ∧ pyStartsWith "ftp://e.test/1" "https://" = false
    ∧ c5Cfg.https = true
    ∧ (c5Cfg.sub.map (fun sc => sc.url.isSome)) = some true := by decide

theorem c5_https_before_sub_witness :
    subStageInput litExt c5Cfg [⟨"t", "http://e.test/1"⟩] =
      (blacklistStage litExt c5Cfg (whitelistStage litExt c5Cfg
        [⟨"t", "http://e.test/1"⟩])).map httpsRewrite :=
  (c5_https_before_sub litExt c5Cfg [⟨"t", "http://e.test/1"⟩] rfl).2.1

theorem findSome?_isSome {α β : Type} (f : α → Option β) (l : List α) :
    (l.findSome? f).isSome = l.any (fun x => (f x).isSome) := by
  induction l with
  | nil => rfl
  | cons a as ih =>
    rw [List.findSome?_cons]
    cases h : f a <;> simp [h, ih]

/-- The whitelist configuration of the C6 example. -/
def c6Wl : SearchConfig :=
  { title := ["foo"], url := [], explain := true }

/-- The feed configuration of the C6 example: a whitelist with pattern
`foo` on the title and `explain: true`. -/
def c6Cfg : FeedConfig :=
  { whitelist := some c6Wl, blacklist := none, https := false, sub := none,
    format := none, new := none, dedup := none, shorten := none }

/-- C6: `is_listed` checks the title before the URL using first-match-wins
search within each field's pattern list; an entry survives the whitelist
stage exactly when some pattern matches; and with `explain` set and a title
match, the matched span is wrapped with `*`: pattern `foo` against title
`hello foo bar` yields `hello *foo* bar`. -/
theorem c6_whitelist_matching :
    (∀ (ext : PyExt) (wl : SearchConfig) (e : FeedEntry),
      (e.is_listed ext wl).isSome =
        (wl.title.any (fun p => (ext.search p e.title).isSome)
          || wl.url.any (fun p => (ext.search p e.long_url).isSome)))
    ∧ (∀ (ext : PyExt) (wl : SearchConfig) (e : FeedEntry) (sp : Nat × Nat),
        wl.title.findSome? (fun p => ext.search p e.title) = some sp →
        e.is_listed ext wl = some (MatchField.title, sp))
    ∧ (∀ (ext : PyExt) (wl : SearchConfig) (e : FeedEntry) (sp : Nat × Nat),
        wl.title.findSome? (fun p => ext.search p e.title) = none →
        wl.url.findSome? (fun p => ext.search p e.long_url) = some sp →
        e.is_listed ext wl = some (MatchField.url, sp))
    ∧ (∀ (ext : PyExt) (cfg : FeedConfig) (wl : SearchConfig) (entries : List FeedEntry),
        cfg.whitelist = some wl →
        whitelistStage ext cfg entries =
          (entries.filter (fun e => (e.is_listed ext wl).isSome)).map (wlAnnotate ext wl))
    ∧ whitelistStage litExt c6Cfg [⟨"hello foo bar", "u"⟩] = [⟨"hello *foo* bar", "u"⟩] := by
  refine ⟨?_, ?_, ?_, ?_, by decide⟩
  · intro ext wl e
    unfold FeedEntry.is_listed
    cases h1 : wl.title.findSome? (fun p => ext.search p e.title) with
    | some sp =>
      have := findSome?_isSome (fun p => ext.search p e.title) wl.title
      rw [h1] at this
      simp [← this]
    | none =>
      have := findSome?_isSome (fun p => ext.search p e.title) wl.title
      rw [h1] at this
      cases h2 : wl.url.findSome? (fun p => ext.search p e.long_url) with
      | some sp =>
        have h2' := findSome?_isSome (fun p => ext.search p e.long_url) wl.url
        rw [h2] at h2'
        simp [← this, ← h2']
      | none =>
        have h2' := findSome?_isSome (fun p => ext.search p e.long_url) wl.url
        rw [h2] at h2'
        simp [← this, ← h2']
  · intro ext wl e sp h
    simp only [FeedEntry.is_listed, h]
  · intro ext wl e sp h1 h2
    simp only [FeedEntry.is_listed, h1, h2]
  · intro ext cfg wl entries h
    simp only [whitelistStage, h]

theorem c6_whitelist_witness :
    FeedEntry.is_listed litExt c6Wl ⟨"hello foo bar", "u"⟩ = some (MatchField.title, 6, 9) :=
  c6_whitelist_matching.2.1 litExt c6Wl ⟨"hello foo bar", "u"⟩ (6, 9) (by decide)

/-- The feed configuration of the C7 witness: no `new` key configured. -/
def c7CfgW : FeedConfig :=
  { whitelist := none, blacklist := none, https := false, sub := none,
    format := none, new := none, dedup := none, shorten := none }

/-- Ten parsed entries, as in the new-feed cap example. -/
def c7Ents : List FeedEntry :=
  (List.range 10).map (fun i => ⟨s!"t{i}", s!"u{i}"⟩)

/-- C7: when the store reports the feed as new, `Feed.postable_entries`
truncates the unposted list to the first `cap` entries in original order,
where `cap` is the table lookup at the feed's `new` symbol (the default
symbol when the key is absent, which the spec resolves to 3); when the feed
is not new there is no truncation; and the rest of `postable_entries`
depends on the unposted list only through the throttled list. -/
theorem c7_new_feed_cap (npm : String → Nat) (new_default : String) (cfg : FeedConfig)
    (unposted : List FeedEntry) :
    Feed.newFeedThrottle npm new_default cfg true unposted =
      unposted.take (npm (cfg.new.getD new_default))
    ∧ (Feed.newFeedThrottle npm new_default cfg true unposted).length ≤
        npm (cfg.new.getD new_default)
    ∧ (∃ t, unposted = Feed.newFeedThrottle npm new_default cfg true unposted ++ t)
    ∧ Feed.newFeedThrottle npm new_default cfg false unposted = unposted
    ∧ (newPostsTableSpec npm new_default → cfg.new = none →
        Feed.newFeedThrottle npm new_default cfg true unposted = unposted.take 3)
    ∧ (∀ (shortFn : List String → List String) (is_new : Bool)
        (unposted' : List FeedEntry),
        Feed.newFeedThrottle npm new_default cfg is_new unposted =
          Feed.newFeedThrottle npm new_default cfg is_new unposted' →
        Feed.postable_entries npm new_default shortFn cfg is_new unposted =
          Feed.postable_entries npm new_default shortFn cfg is_new unposted') := by
  have h1 : Feed.newFeedThrottle npm new_default cfg true unposted =
      unposted.take (npm (cfg.new.getD new_default)) := rfl
  refine ⟨h1, ?_, ?_, rfl, ?_, ?_⟩
  · rw [h1]
    exact List.length_take_le _ _
  · rw [h1]
    exact ⟨_, (List.take_append_drop _ _).symm⟩
  · intro hspec hnone
    unfold newPostsTableSpec at hspec
    rw [h1, hnone]
    simp only [Option.getD_none, hspec, MAX_POSTS_OF_NEW_FEED]
  · intro shortFn is_new unposted' h
    simp only [Feed.postable_entries, h]

theorem c7_new_feed_cap_witness :
    Feed.newFeedThrottle (fun _ => 3) "few" c7CfgW true c7Ents = c7Ents.take 3
    ∧ (c7Ents.take 3).length = 3 :=
  ⟨(c7_new_feed_cap (fun _ => 3) "few" c7CfgW c7Ents).2.2.2.2.1 rfl rfl, by decide⟩

theorem fetchFrom_spec (outcome : Nat → Bool) :
    ∀ (r n : Nat), 0 < r →
      ((fetchFrom outcome n r).attempts.length ≤ r)
      ∧ (∀ m, (fetchFrom outcome n r).result = Except.ok m →
          outcome m = true ∧ n ≤ m ∧ m < n + r
          ∧ (fetchFrom outcome n r).attempts = countFrom n (m + 1 - n)
          ∧ (∀ k, n ≤ k → k < m → outcome k = false)
          ∧ (fetchFrom outcome n r).sleeps = (countFrom n (m - n)).map (fun k => 2 ^ k))
      ∧ ((fetchFrom outcome n r).result = Except.error () →
          (∀ k, n ≤ k → k < n + r → outcome k = false)
          ∧ (fetchFrom outcome n r).attempts = countFrom n r
          ∧ (fetchFrom outcome n r).sleeps = (countFrom n (r - 1)).map (fun k => 2 ^ k)) := by
  intro r
  induction r with
  | zero => intro n h; exact absurd h (by omega)
  | succ r ih =>
    intro n _
    by_cases ho : outcome n = true
    · have hdef : fetchFrom outcome n (r + 1) = ⟨[n], [], Except.ok n⟩ := by
        simp [fetchFrom, ho]
      rw [hdef]
      refine ⟨by simp, ?_, ?_⟩
      · intro m hm
        have hm' : n = m := by simpa using hm
        subst hm'
        refine ⟨ho, le_refl n, by omega, ?_, ?_, ?_⟩
        · simp [countFrom]
        · intro k hk1 hk2
          omega
        · simp [countFrom]
      · intro hm
        simp at hm
    · by_cases hr : r = 0
      · subst hr
        have hdef : fetchFrom outcome n 1 = ⟨[n], [], Except.error ()⟩ := by
          simp [fetchFrom, ho]
        rw [hdef]
        refine ⟨by simp, ?_, ?_⟩
        · intro m hm
          simp at hm
        · intro _
          refine ⟨?_, ?_, ?_⟩
          · intro k hk1 hk2
            have : k = n := by omega
            subst this
            exact Bool.eq_false_iff.mpr ho
          · simp [countFrom]
          · simp [countFrom]
      · have hdef : fetchFrom outcome n (r + 1) =
            ⟨n :: (fetchFrom outcome (n + 1) r).attempts,
              2 ^ n :: (fetchFrom outcome (n + 1) r).sleeps,
              (fetchFrom outcome (n + 1) r).result⟩ := by
          simp [fetchFrom, ho, hr]
        obtain ⟨ihlen, ihok, iherr⟩ := ih (n + 1) (by omega)
        rw [hdef]
        refine ⟨by simpa using by omega, ?_, ?_⟩
        · intro m hm
          obtain ⟨a, b, c, d, e, f⟩ := ihok m hm
          refine ⟨a, by omega, by omega, ?_, ?_, ?_⟩
          · show n :: (fetchFrom outcome (n + 1) r).attempts = countFrom n (m + 1 - n)
            rw [d]
            have hx : m + 1 - n = (m + 1 - (n + 1)) + 1 := by omega
            rw [hx, countFrom]
          · intro k hk1 hk2
            rcases Nat.eq_or_lt_of_le hk1 with hk | hk
            · subst hk
              exact Bool.eq_false_iff.mpr ho
            · exact e k (by omega) hk2
          · show 2 ^ n :: (fetchFrom outcome (n + 1) r).sleeps =
              (countFrom n (m - n)).map (fun k => 2 ^ k)
            rw [f]
            have hx : m - n = (m - (n + 1)) + 1 := by omega
            rw [hx, countFrom]
            simp
        · intro he
          obtain ⟨a, b, c⟩ := iherr he
          refine ⟨?_, ?_, ?_⟩
          · intro k hk1 hk2
            rcases Nat.eq_or_lt_of_le hk1 with hk | hk
            · subst hk
              exact Bool.eq_false_iff.mpr ho
            · exact a k (by omega) (by omega)
          · show n :: (fetchFrom outcome (n + 1) r).attempts = countFrom n (r + 1)
            rw [b, countFrom]
          · show 2 ^ n :: (fetchFrom outcome (n + 1) r).sleeps =
              (countFrom n (r + 1 - 1)).map (fun k => 2 ^ k)
            rw [c]
            have hx : r + 1 - 1 = (r - 1) + 1 := by omega
            rw [hx, countFrom]
            simp

/-- C8: the retry loop of `Feed._url_entries` performs at most
`READ_ATTEMPTS_MAX` attempts (numbered consecutively from 1); when attempt
`m` is the first success it stops there, having slept `2^k` after each
failed attempt `k < m`; when every attempt fails it performs exactly
`READ_ATTEMPTS_MAX` attempts, sleeps `2^k` after each failed attempt except
the last, and propagates the request error. -/
theorem c8_fetch_retry (outcome : Nat → Bool) (attempts_max : Nat) (h : 1 ≤ attempts_max) :
    (Feed.url_entries_retry outcome attempts_max).attempts.length ≤ attempts_max
    ∧ (∀ m, (Feed.url_entries_retry outcome attempts_max).result = Except.ok m →
        outcome m = true ∧ 1 ≤ m ∧ m ≤ attempts_max
        ∧ (Feed.url_entries_retry outcome attempts_max).attempts = countFrom 1 m
        ∧ (∀ k, 1 ≤ k → k < m → outcome k = false)
        ∧ (Feed.url_entries_retry outcome attempts_max).sleeps =
            (countFrom 1 (m - 1)).map (fun k => 2 ^ k))
    ∧ ((Feed.url_entries_retry outcome attempts_max).result = Except.error () →
        (∀ k, 1 ≤ k → k ≤ attempts_max → outcome k = false)
        ∧ (Feed.url_entries_retry outcome attempts_max).attempts = countFrom 1 attempts_max
        ∧ (Feed.url_entries_retry outcome attempts_max).sleeps =
            (countFrom 1 (attempts_max - 1)).map (fun k => 2 ^ k)) := by
  obtain ⟨h1, h2, h3⟩ := fetchFrom_spec outcome attempts_max 1 (by omega)
  refine ⟨h1, ?_, ?_⟩
  · intro m hm
    obtain ⟨a, b, c, d, e, f⟩ := h2 m hm
    refine ⟨a, b, by omega, ?_, e, ?_⟩
    · rw [show m + 1 - 1 = m by omega] at d
      exact d
    · exact f
  · intro he
    obtain ⟨a, b, c⟩ := h3 he
    exact ⟨fun k hk1 hk2 => a k hk1 (by omega), b, c⟩

theorem c8_fetch_retry_witness :
    (Feed.url_entries_retry (fun k => k == 2) 3).attempts.length ≤ 3
    ∧ (Feed.url_entries_retry (fun k => k == 2) 3).sleeps = [2] :=
  ⟨(c8_fetch_retry (fun k => k == 2) 3 (by omega)).1, by decide⟩

theorem buildShortened_spec (shorts : List String) :
    ∀ (entries : List FeedEntry) (i : Nat), i + entries.length ≤ shorts.length →
      buildShortened shorts entries i =
        some ((entries.zip (shorts.drop i)).map
          (fun p => ⟨p.1.title, p.1.long_url, p.2⟩)) := by
  intro entries
  induction entries with
  | nil => intro i _; simp [buildShortened]
  | cons e rest ih =>
    intro i hlen
    have hi : i < shorts.length := by
      simp only [List.length_cons] at hlen
      omega
    simp only [buildShortened, List.getElem?_eq_getElem hi]
    rw [ih (i + 1) (by simp only [List.length_cons] at hlen ⊢; omega)]
    rw [List.drop_eq_getElem_cons hi, List.zip_cons_cons, List.map_cons]
    rfl

theorem postable_entries_eq (npm : String → Nat) (nd : String)
    (shortFn : List String → List String) (cfg : FeedConfig) (is_new : Bool)
    (unposted : List FeedEntry) :
    Feed.postable_entries npm nd shortFn cfg is_new unposted =
      if !(Feed.newFeedThrottle npm nd cfg is_new unposted).isEmpty
          && cfg.shorten.getD true then
        ((buildShortened
            (shortFn ((Feed.newFeedThrottle npm nd cfg is_new unposted).map
              (fun e => e.long_url)))
            (Feed.newFeedThrottle npm nd cfg is_new unposted) 0).map
          (fun l => l.map PostableEntry.shortened),
          [(Feed.newFeedThrottle npm nd cfg is_new unposted).map (fun e => e.long_url)])
      else
        (some ((Feed.newFeedThrottle npm nd cfg is_new unposted).map PostableEntry.plain),
          []) := rfl

/-- C9: in `Feed.postable_entries` the shortener is invoked exactly when the
throttled entry list is non-empty and the `shorten` flag (true when the key
is absent) is set; it is invoked exactly once, with the batch of all long
URLs in list order; and when its answer is parallel to the batch, each
resulting entry is a `ShortenedFeedEntry` carrying the shortener's output at
the same position with `title` and `long_url` preserved. -/
theorem c9_shorten_batch (npm : String → Nat) (nd : String)
    (shortFn : List String → List String) (cfg : FeedConfig) (is_new : Bool)
    (unposted : List FeedEntry) :
    ((Feed.postable_entries npm nd shortFn cfg is_new unposted).2 ≠ [] ↔
      (Feed.newFeedThrottle npm nd cfg is_new unposted ≠ []
        ∧ cfg.shorten.getD true = true))
    ∧ ((Feed.newFeedThrottle npm nd cfg is_new unposted ≠ []
          ∧ cfg.shorten.getD true = true) →
        (Feed.postable_entries npm nd shortFn cfg is_new unposted).2 =
          [(Feed.newFeedThrottle npm nd cfg is_new unposted).map (fun e => e.long_url)])
    ∧ (¬(Feed.newFeedThrottle npm nd cfg is_new unposted ≠ []
          ∧ cfg.shorten.getD true = true) →
        Feed.postable_entries npm nd shortFn cfg is_new unposted =
          (some ((Feed.newFeedThrottle npm nd cfg is_new unposted).map PostableEntry.plain),
            []))
    ∧ ((Feed.newFeedThrottle npm nd cfg is_new unposted ≠ []
          ∧ cfg.shorten.getD true = true) →
        (shortFn ((Feed.newFeedThrottle npm nd cfg is_new unposted).map
            (fun e => e.long_url))).length =
          (Feed.newFeedThrottle npm nd cfg is_new unposted).length →
        (Feed.postable_entries npm nd shortFn cfg is_new unposted).1 =
          some (((Feed.newFeedThrottle npm nd cfg is_new unposted).zip
              (shortFn ((Feed.newFeedThrottle npm nd cfg is_new unposted).map
                (fun e => e.long_url)))).map
            (fun p => PostableEntry.shortened ⟨p.1.title, p.1.long_url, p.2⟩)))
    ∧ (cfg.shorten = none → cfg.shorten.getD true = true) := by
  have hcond : (!(Feed.newFeedThrottle npm nd cfg is_new unposted).isEmpty
      && cfg.shorten.getD true) = true ↔
      (Feed.newFeedThrottle npm nd cfg is_new unposted ≠ []
        ∧ cfg.shorten.getD true = true) := by
    simp [List.isEmpty_iff]
  refine ⟨?_, ?_, ?_, ?_, ?_⟩
  · rw [postable_entries_eq]
    by_cases hb : (!(Feed.newFeedThrottle npm nd cfg is_new unposted).isEmpty
        && cfg.shorten.getD true) = true
    · rw [if_pos hb]
      simpa using hcond.mp hb
    · rw [if_neg hb]
      simpa using fun hc => hb (hcond.mpr hc)
  · intro hc
    rw [postable_entries_eq, if_pos (hcond.mpr hc)]
  · intro hc
    rw [postable_entries_eq, if_neg (fun hb => hc (hcond.mp hb))]
  · intro hc hlen
    rw [postable_entries_eq, if_pos (hcond.mpr hc)]
    show ((buildShortened _ _ 0).map (fun l => l.map PostableEntry.shortened)) = _
    rw [buildShortened_spec _ _ 0 (by rw [hlen]; simp)]
    simp [List.map_map, Function.comp]
  · intro h
    rw [h]
    rfl

/-- The feed configuration of the C9 witness: no `shorten` key configured. -/
def c9Cfg : FeedConfig :=
  { whitelist := none, blacklist := none, https := false, sub := none,
    format := none, new := none, dedup := none, shorten := none }

theorem c9_shorten_batch_witness :
    (Feed.postable_entries (fun _ => 3) "d" (fun l => l.map (fun _ => "s")) c9Cfg false
        [⟨"t", "u"⟩]).1 = some [PostableEntry.shortened ⟨"t", "u", "s"⟩] :=
  ((c9_shorten_batch (fun _ => 3) "d" (fun l => l.map (fun _ => "s")) c9Cfg false
      [⟨"t", "u"⟩]).2.2.2.1 ⟨by decide, by decide⟩ (by decide)).trans (by decide)
